import Mathlib

/-!
Verification development for the dogecash node sources: the REST
`getutxos` endpoint (`src/rest.cpp`), the legacy shielded stake input
(`legacy_zpos` header), the LLMQ subsystem lifecycle
(`src/llmq/quorums_init.cpp`), and the spec's Uniqueness Index contract.

Machine integers are modelled as `Nat`/`Int` with explicit reductions
modulo `2^w` where the code relies on wrap-around.
-/

set_option maxRecDepth 4000

/-! ## Basic transaction data types -/

/-- An outpoint `(txid, output index)`.  `hash` models a `uint256`
(value below `2^256`), `n` a `uint32`. -/
structure COutPoint where
  hash : Nat
  n : Nat
  deriving DecidableEq, Repr

/-- A transaction output: amount (`CAmount`, a 64-bit signed integer)
plus locking script bytes. -/
structure CTxOut where
  nValue : Int
  scriptPubKey : List Nat
  deriving DecidableEq, Repr

/-- A transaction input as far as the modelled code needs it. -/
structure CTxIn where
  prevout : COutPoint
  scriptSig : List Nat
  deriving DecidableEq, Repr

/-- A coin record in the UTXO set: the output plus its confirmation
height (the coinbase/coinstake flags are not consulted by the modelled
code paths). -/
structure Coin where
  out : CTxOut
  nHeight : Nat
  deriving DecidableEq, Repr

/-- `CCoin` from `rest.cpp`: the REST-facing coin record (height and
output) that gets serialized into a `getutxos` response. -/
structure CCoin where
  nHeight : Nat
  out : CTxOut
  deriving DecidableEq, Repr

/-- An opaque wallet handle; the modelled code never inspects it. -/
structure CWallet where
  id : Nat
  deriving DecidableEq, Repr

/-! ## Legacy shielded stake input (`CLegacyZFlsStake`) -/

/-- The data members of `CLegacyZFlsStake` (checksum, denomination tag,
serial hash). -/
structure CLegacyZFlsStake where
  nChecksum : Nat
  denom : Int
  hashSerial : Nat
  deriving DecidableEq, Repr

/-- `CLegacyZFlsStake::CreateTxIn`: the body is `return false;` — the
reference argument is left untouched, so the model returns the flag and
the unchanged `txIn`. -/
def CLegacyZFlsStake.CreateTxIn (_self : CLegacyZFlsStake) (_pwallet : CWallet)
    (txIn : CTxIn) (_hashTxOut : Nat) : Bool × CTxIn :=
  (false, txIn)

/-- `CLegacyZFlsStake::CreateTxOuts`: the body is `return false;`. -/
def CLegacyZFlsStake.CreateTxOuts (_self : CLegacyZFlsStake) (_pwallet : CWallet)
    (vout : List CTxOut) (_nTotal : Int) (_onlyP2PK : Bool) : Bool × List CTxOut :=
  (false, vout)

/-- `CLegacyZFlsStake::GetTxOutFrom`: the body is `return false;`. -/
def CLegacyZFlsStake.GetTxOutFrom (_self : CLegacyZFlsStake) (out : CTxOut) :
    Bool × CTxOut :=
  (false, out)

/-! ## Uniqueness Index -/

/-- Modelled from the spec: the Uniqueness Index (section 4.4) — a
mapping from a 256-bit spend fingerprint to the height of the block that
recorded it; the persistent map itself is not under `src/`.  Entries are
an association list fingerprint-to-height. -/
structure UniquenessIndex where
  entries : List (Nat × Nat)
  deriving DecidableEq, Repr

/-- Modelled from the spec: `Contains(fingerprint)` membership test. -/
def UniquenessIndex.Contains (idx : UniquenessIndex) (f : Nat) : Bool :=
  idx.entries.any (fun e => decide (e.1 = f))

/-- Modelled from the spec: `Insert(fingerprint, blockHeight)` — an
insert of an already-present fingerprint must fail (no silent
overwrite), so failure is `none`. -/
def UniquenessIndex.Insert (idx : UniquenessIndex) (f blockHeight : Nat) :
    Option UniquenessIndex :=
  if idx.Contains f then none else some ⟨(f, blockHeight) :: idx.entries⟩

/-- Modelled from the spec: `Remove(fingerprint)` used on reorg
rollback. -/
def UniquenessIndex.Remove (idx : UniquenessIndex) (f : Nat) : UniquenessIndex :=
  ⟨idx.entries.filter (fun e => decide (e.1 ≠ f))⟩

/-! ## LLMQ subsystem lifecycle (`llmq/quorums_init.cpp`)

The global `CBLSWorker* blsWorker` pointer is modelled as
`Option Nat`: `none` is the null pointer, `some id` a pointer to the
allocation with identity `id`.  A list of freed identities tracks
deleted allocations, so "dereference of a deleted worker" is expressible
as the current id being in the freed list.  Each lifecycle call returns
the new state together with a flag that is `true` exactly when the call
dereferenced a freed allocation (the unsafe behaviour claim C10 rules
out). -/

structure LLMQState where
  blsWorker : Option Nat
  freed : List Nat
  nextId : Nat
  deriving DecidableEq, Repr

/-- Process start state: the global pointer is null, nothing allocated. -/
def initLLMQState : LLMQState := ⟨none, [], 0⟩

/-- `InitLLMQSystem`: `blsWorker = new CBLSWorker()` — a fresh
allocation overwrites the pointer (the block-processor reset is not
modelled; it does not touch the worker). -/
def InitLLMQSystem (s : LLMQState) : LLMQState × Bool :=
  (⟨some s.nextId, s.freed, s.nextId + 1⟩, false)

/-- `StartLLMQSystem`: `if (blsWorker) blsWorker->Start();` — the call
dereferences the worker only when the pointer is non-null; the deref is
unsafe when the allocation was already freed. -/
def StartLLMQSystem (s : LLMQState) : LLMQState × Bool :=
  match s.blsWorker with
  | some id => (s, decide (id ∈ s.freed))
  | none => (s, false)

/-- `StopLLMQSystem`: `if (blsWorker) blsWorker->Stop();`. -/
def StopLLMQSystem (s : LLMQState) : LLMQState × Bool :=
  match s.blsWorker with
  | some id => (s, decide (id ∈ s.freed))
  | none => (s, false)

/-- `DestroyLLMQSystem`: `delete blsWorker; blsWorker = nullptr;` —
deleting a non-null pointer destructs (dereferences) the allocation and
records it freed; `delete nullptr` is a no-op; afterwards the pointer is
null. -/
def DestroyLLMQSystem (s : LLMQState) : LLMQState × Bool :=
  match s.blsWorker with
  | some id => (⟨none, id :: s.freed, s.nextId⟩, decide (id ∈ s.freed))
  | none => (⟨none, s.freed, s.nextId⟩, false)

/-- The four lifecycle entry points callers may invoke in any order. -/
inductive LLMQOp
  | opInit
  | opStart
  | opStop
  | opDestroy
  deriving DecidableEq, Repr

def llmqStep (s : LLMQState) : LLMQOp → LLMQState × Bool
  | .opInit => InitLLMQSystem s
  | .opStart => StartLLMQSystem s
  | .opStop => StopLLMQSystem s
  | .opDestroy => DestroyLLMQSystem s

/-- Run a call sequence; the flag is `true` when any step performed an
unsafe dereference. -/
def llmqRun (s : LLMQState) : List LLMQOp → LLMQState × Bool
  | [] => (s, false)
  | op :: rest =>
    let r := llmqStep s op
    let r2 := llmqRun r.1 rest
    (r2.1, r.2 || r2.2)

/-- Pointer sanity invariant: a non-null worker pointer refers to a
live (never freed) allocation, and all identities are below the
allocation counter. -/
def LLMQInv (s : LLMQState) : Prop :=
  (∀ id, s.blsWorker = some id → id ∉ s.freed ∧ id < s.nextId) ∧
    (∀ f ∈ s.freed, f < s.nextId)

/-! ## Serialization primitives

Modelled from the spec: the node's network serialization
(`serialize.h`, not under `src/`) as used by `rest.cpp`'s
`CDataStream` inserts — little-endian fixed-width integers with
two's-complement for signed values, 32-byte little-endian `uint256`,
Bitcoin compact sizes, and length-prefixed byte vectors. -/

/-- Little-endian bytes of `n mod 2^(8*w)`, `w` bytes wide. -/
def serLE (w n : Nat) : List Nat :=
  (List.range w).map (fun k => n / 256 ^ k % 256)

/-- `ser_writedata32`: a `uint32` as 4 little-endian bytes. -/
def serUInt32LE (n : Nat) : List Nat := serLE 4 n

/-- A signed 32-bit integer (e.g. the chain height) in two's
complement, little-endian. -/
def serInt32LE (i : Int) : List Nat :=
  serLE 4 ((i % 4294967296 + 4294967296) % 4294967296).toNat

/-- A signed 64-bit amount (`CAmount`) in two's complement,
little-endian. -/
def serInt64LE (i : Int) : List Nat :=
  serLE 8 ((i % 18446744073709551616 + 18446744073709551616) % 18446744073709551616).toNat

/-- A `uint256` as its 32 raw little-endian bytes. -/
def serUInt256LE (h : Nat) : List Nat := serLE 32 h

/-- `WriteCompactSize`. -/
def serCompactSize (n : Nat) : List Nat :=
  if n < 253 then [n]
  else if n < 65536 then 253 :: serLE 2 n
  else if n < 4294967296 then 254 :: serLE 4 n
  else 255 :: serLE 8 n

/-- Serialization of a `std::vector<unsigned char>` (and of a
`CScript`): compact size then the raw bytes. -/
def serBytesV (bs : List Nat) : List Nat :=
  serCompactSize bs.length ++ bs

/-- Serialization of a `std::vector<T>`: compact size then each
element in order. -/
def serVector {α : Type} (ser : α → List Nat) (xs : List α) : List Nat :=
  serCompactSize xs.length ++ (xs.map ser).flatten

/-- `CTxOut` serialization: `nValue` then `scriptPubKey`. -/
def serTxOut (o : CTxOut) : List Nat :=
  serInt64LE o.nValue ++ serBytesV o.scriptPubKey

/-- `CCoin` serialization (`SERIALIZE_METHODS` in `rest.cpp`):
`READWRITE(nTxVerDummy, obj.nHeight, obj.out)` with `nTxVerDummy = 0`. -/
def serCCoin (c : CCoin) : List Nat :=
  serUInt32LE 0 ++ serUInt32LE c.nHeight ++ serTxOut c.out

/-! ## Hex encoding and decoding

Modelled from the spec: `HexStr`, `ParseHex`, `IsHex`, `ParseInt32`
(`utilstrencodings`, not under `src/`) and `uint256::SetHex`, which the
spec relies on for the hex response form and for boundary rejection of
malformed input. -/

/-- The lowercase hex digit for a nibble, as a byte value. -/
def hexCharByte (n : Nat) : Nat :=
  if n < 10 then 48 + n else 87 + n

/-- `HexStr` over bytes, producing the byte values of the lowercase
hex characters, high nibble first. -/
def hexEncodeBytes (bs : List Nat) : List Nat :=
  bs.flatMap (fun b => [hexCharByte (b / 16 % 16), hexCharByte (b % 16)])

/-- `HexStr` as characters (the text form written into the reply). -/
def hexStrChars (bs : List Nat) : List Char :=
  (hexEncodeBytes bs).map Char.ofNat

/-- `HexDigit` on a byte value: `0-9`, `a-f`, `A-F`. -/
def hexDigitValB (b : Nat) : Option Nat :=
  if 48 ≤ b ∧ b ≤ 57 then some (b - 48)
  else if 97 ≤ b ∧ b ≤ 102 then some (b - 87)
  else if 65 ≤ b ∧ b ≤ 70 then some (b - 55)
  else none

/-- C `isspace` on a byte value. -/
def isSpaceB (b : Nat) : Bool :=
  b = 32 || b = 9 || b = 10 || b = 11 || b = 12 || b = 13

/-- `ParseHex`: consume hex digit pairs (whitespace allowed before the
high nibble of each pair) and stop silently at the first byte that is
not a hex digit. -/
def parseHexBytesB : List Nat → List Nat
  | [] => []
  | b :: rest =>
    if isSpaceB b then parseHexBytesB rest
    else
      match hexDigitValB b with
      | none => []
      | some hi =>
        match rest with
        | [] => []
        | b2 :: rest2 =>
          match hexDigitValB b2 with
          | none => []
          | some lo => (16 * hi + lo) :: parseHexBytesB rest2

/-- `HexDigit` on a character (URI fields are text). -/
def hexDigitValC (c : Char) : Option Nat := hexDigitValB c.toNat

/-- `IsHex`: every character a hex digit, non-empty, even length. -/
def isHexStr (s : List Char) : Bool :=
  s.all (fun c => (hexDigitValC c).isSome) && decide (0 < s.length)
    && decide (s.length % 2 = 0)

/-- Big-endian value of a run of hex digit characters (non-digits count
as zero; `IsHex` has already excluded them where this is used). -/
def hexCharsToNat (s : List Char) : Nat :=
  s.foldl (fun acc c => 16 * acc + ((hexDigitValC c).getD 0)) 0

/-- `uint256::SetHex` on an all-hex-digit string: the big-endian value
reduced into 32 bytes (digits beyond the low 64 are discarded). -/
def setHexNat (s : List Char) : Nat :=
  hexCharsToNat s % (2 ^ 256)

/-- `ParseInt32`: optional sign, decimal digits only, whole string
consumed, result within the `int32_t` range. -/
def parseInt32 (s : List Char) : Option Int :=
  match s with
  | [] => none
  | _ =>
    let signAndDigits : Int × List Char :=
      match s with
      | '-' :: t => (-1, t)
      | '+' :: t => (1, t)
      | t => (1, t)
    match signAndDigits with
    | (sign, digits) =>
      if digits.isEmpty || !digits.all Char.isDigit then none
      else
        let v : Int := sign * (digits.foldl (fun acc c => 10 * acc + (c.toNat - 48)) 0 : Nat)
        if -2147483648 ≤ v ∧ v < 2147483648 then some v else none

/-- The `(uint32_t)nOutput` cast applied to a parsed `int32_t`. -/
def int32ToUInt32 (i : Int) : Nat :=
  ((i % 4294967296 + 4294967296) % 4294967296).toNat

/-! ## Stream reading (deserialization of a posted `getutxos` body)

Modelled from the spec: the node's `CDataStream` extraction operators
(`serialize.h`, not under `src/`) for `bool`, compact sizes,
`COutPoint` and `std::vector<COutPoint>`; a read past the end of the
stream raises the failure the handler turns into a parse error, so the
readers return `none` there. -/

def readByteR : List Nat → Option (Nat × List Nat)
  | [] => none
  | b :: rest => some (b, rest)

def readBytesR : Nat → List Nat → Option (List Nat × List Nat)
  | 0, s => some ([], s)
  | _ + 1, [] => none
  | n + 1, b :: rest =>
    match readBytesR n rest with
    | some (bs, r) => some (b :: bs, r)
    | none => none

/-- Little-endian value of a byte run. -/
def leVal (bs : List Nat) : Nat :=
  bs.foldr (fun b acc => b + 256 * acc) 0

/-- The global serialization sanity bound `MAX_SIZE` (0x02000000). -/
def MAX_SIZE : Nat := 33554432

/-- `ReadCompactSize` with its canonicity and `MAX_SIZE` checks. -/
def readCompactSize (s : List Nat) : Option (Nat × List Nat) :=
  match readByteR s with
  | none => none
  | some (ch, r) =>
    if ch < 253 then some (ch, r)
    else if ch = 253 then
      match readBytesR 2 r with
      | some (bs, r2) =>
        let v := leVal bs
        if v < 253 ∨ MAX_SIZE < v then none else some (v, r2)
      | none => none
    else if ch = 254 then
      match readBytesR 4 r with
      | some (bs, r2) =>
        let v := leVal bs
        if v < 65536 ∨ MAX_SIZE < v then none else some (v, r2)
      | none => none
    else
      match readBytesR 8 r with
      | some (bs, r2) =>
        let v := leVal bs
        if v < 4294967296 ∨ MAX_SIZE < v then none else some (v, r2)
      | none => none

/-- `COutPoint` extraction: 32-byte hash then 4-byte index. -/
def readOutPoint (s : List Nat) : Option (COutPoint × List Nat) :=
  match readBytesR 32 s with
  | none => none
  | some (hbs, r) =>
    match readBytesR 4 r with
    | none => none
    | some (nbs, r2) => some (⟨leVal hbs, leVal nbs⟩, r2)

def readOutPoints : Nat → List Nat → Option (List COutPoint × List Nat)
  | 0, s => some ([], s)
  | n + 1, s =>
    match readOutPoint s with
    | none => none
    | some (p, r) =>
      match readOutPoints n r with
      | none => none
      | some (ps, r2) => some (p :: ps, r2)

/-- The posted-body deserialization in `rest_getutxos`: the handler
first serializes the body string into a fresh stream (`oss <<
strRequestMutable`, which writes a compact-size length prefix before
the raw bytes) and then extracts `fCheckMemPool` (one byte, nonzero is
true) and `vOutPoints`; leftover bytes are ignored. -/
def deserializePost (body : List Nat) : Option (Bool × List COutPoint) :=
  let oss := serCompactSize body.length ++ body
  match readByteR oss with
  | none => none
  | some (b0, r) =>
    match readCompactSize r with
    | none => none
    | some (count, r2) =>
      match readOutPoints count r2 with
      | none => none
      | some (pts, _) => some (decide (b0 ≠ 0), pts)

/-! ## Ledger state, mempool overlay and the coin view of the request

Modelled from the spec (sections 3, 4.1, 4.2): the authoritative Coin
View Stack is collapsed to its abstract content, a finite map from
outpoint to coin record (`pcoinsTip` and its backing store, not under
`src/`); the mempool carries the outputs of pooled transactions and the
set of outpoints they spend. -/

structure Mempool where
  txOutputs : List (Nat × List CTxOut)
  spentOutpoints : List COutPoint
  deriving DecidableEq, Repr

structure LedgerState where
  utxo : List (COutPoint × Coin)
  mempool : Mempool
  chainHeight : Int
  tipHash : Nat
  deriving DecidableEq, Repr

/-- `mempool.isSpent(outpoint)`: an outpoint consumed by a pooled
transaction. -/
def mempoolIsSpent (mp : Mempool) (p : COutPoint) : Bool :=
  mp.spentOutpoints.any (fun q => decide (q = p))

/-- Lookup of a coin in the authoritative UTXO content. -/
def baseGetCoin (utxo : List (COutPoint × Coin)) (p : COutPoint) : Option Coin :=
  match utxo with
  | [] => none
  | (q, c) :: rest => if q = p then some c else baseGetCoin rest p

/-- Association lookup of a pooled transaction's outputs by txid. -/
def assocTxLookup (l : List (Nat × List CTxOut)) (hash : Nat) : Option (List CTxOut) :=
  match l with
  | [] => none
  | (h, outs) :: rest => if h = hash then some outs else assocTxLookup rest hash

/-- Lookup of a pooled transaction's outputs by txid
(`mempool.get(hash)`). -/
def mempoolGetTx (mp : Mempool) (hash : Nat) : Option (List CTxOut) :=
  assocTxLookup mp.txOutputs hash

/-- The sentinel "unconfirmed" height of a coin synthesized from a
pooled transaction (`MEMPOOL_HEIGHT`). -/
def MEMPOOL_HEIGHT : Nat := 2147483647

/-- Modelled from the spec (section 4.2): `CCoinsViewMemPool::GetCoin`
— if the outpoint's transaction is pooled, synthesize a coin at the
sentinel height from its output (a miss when the index is out of
range, without consulting the base); otherwise fall through to the
authoritative base. -/
def mempoolViewGetCoin (s : LedgerState) (p : COutPoint) : Option Coin :=
  match mempoolGetTx s.mempool p.hash with
  | some outs =>
    if h : p.n < outs.length then some ⟨outs.get ⟨p.n, h⟩, MEMPOOL_HEIGHT⟩ else none
  | none => baseGetCoin s.utxo p

/-- `GetCoin` through the per-request view of `rest_getutxos`: a fresh
`CCoinsViewCache` over the empty `viewDummy` backend, whose backend is
swapped to the db+mempool overlay when `checkmempool` was requested.
The fresh cache starts empty and the backends are read-only for the
request, so the cache layer is semantically transparent; without the
swap every lookup falls through to `viewDummy` and misses. -/
def viewGetCoin (s : LedgerState) (fCheckMemPool : Bool) (p : COutPoint) : Option Coin :=
  if fCheckMemPool then mempoolViewGetCoin s p else none

/-- `GetCoin` through a fresh Coin View Stack over only the
authoritative backend (no mempool overlay). -/
def freshAuthViewGetCoin (utxo : List (COutPoint × Coin)) (p : COutPoint) : Option Coin :=
  baseGetCoin utxo p

/-! ## The `rest_getutxos` lookup loop and bitmap -/

/-- The spentness loop of `rest_getutxos`: per outpoint, a hit when
`view.GetCoin` succeeds and the mempool does not record the outpoint
spent; each hit appends one `CCoin` record, in query order. -/
def lookupLoop (s : LedgerState) (fcm : Bool) : List COutPoint → List Bool × List CCoin
  | [] => ([], [])
  | p :: rest =>
    let r := lookupLoop s fcm rest
    match viewGetCoin s fcm p, mempoolIsSpent s.mempool p with
    | some c, false => (true :: r.1, ⟨c.nHeight, c.out⟩ :: r.2)
    | some _, true => (false :: r.1, r.2)
    | none, _ => (false :: r.1, r.2)

/-- One iteration of the bitmap write:
`bitmap[i / 8] |= ((uint8_t)hit) << (i % 8)`. -/
def bitmapWrite (bm : List Nat) (i : Nat) (hit : Bool) : List Nat :=
  bm.set (i / 8) ((bm.getD (i / 8) 0) ||| ((cond hit 1 0) <<< (i % 8)))

def bitmapLoopGo (bm : List Nat) : List Bool → Nat → List Nat
  | [], _ => bm
  | h :: t, i => bitmapLoopGo (bitmapWrite bm i h) t (i + 1)

/-- The bitmap bytes: `(n + 7) / 8` zero bytes, then the loop above. -/
def buildBitmap (hits : List Bool) : List Nat :=
  bitmapLoopGo (List.replicate ((hits.length + 7) / 8) 0) hits 0

/-- The human-readable bitmap string appended hit by hit. -/
def bitmapStringRepresentation (hits : List Bool) : List Char :=
  hits.map (fun h => cond h '1' '0')

/-! ## Request parsing (`rest_getutxos` before the lookup) -/

inductive RetFormat
  | RF_UNDEF
  | RF_BINARY
  | RF_HEX
  | RF_JSON
  deriving DecidableEq, Repr

inductive RestErr
  | emptyRequest
  | parseError
  | combinationNotAllowed
  | maxOutpointsExceeded (tried : Nat)
  | formatNotFound
  deriving DecidableEq, Repr

/-- The `"checkmempool"` URI token. -/
def checkmempoolTok : List Char := "checkmempool".toList

/-- `substr(0, find('-'))`: the characters before the first dash (the
whole part when there is none). -/
def beforeDash (part : List Char) : List Char :=
  part.takeWhile (fun c => c ≠ '-')

/-- `substr(find('-') + 1)`: the characters after the first dash; with
no dash, `npos + 1` wraps to `0`, so the whole part. -/
def afterDash (part : List Char) : List Char :=
  match part.findIdx? (fun c => c = '-') with
  | some i => part.drop (i + 1)
  | none => part

/-- The URI outpoint loop: each part must split into a hex txid and an
`int32` output index, else the request fails with a parse error
(`none`); the parsed index is cast to `uint32`. -/
def parseURIOutpoints : List (List Char) → Option (List COutPoint)
  | [] => some []
  | part :: rest =>
    match parseInt32 (afterDash part), isHexStr (beforeDash part) with
    | some nOut, true =>
      (parseURIOutpoints rest).map
        (fun l => ⟨setHexNat (beforeDash part), int32ToUInt32 nOut⟩ :: l)
    | _, _ => none

/-- The URI parts the outpoint loop scans: all of them, except that a
leading `checkmempool` token is skipped. -/
def uriScannedParts (uriParts : List (List Char)) : List (List Char) :=
  if uriParts.headD [] = checkmempoolTok then uriParts.tail else uriParts

/-- The URI-scheme input stage: detect the `checkmempool` token, parse
the remaining parts, reject an outpoint-less URI as an empty request.
Returns `(fCheckMemPool, vOutPoints, fInputParsed)`. -/
def uriStage (uriParts : List (List Char)) :
    Except RestErr (Bool × List COutPoint × Bool) :=
  if uriParts.isEmpty then .ok (false, [], false)
  else
    match parseURIOutpoints (uriScannedParts uriParts) with
    | none => .error .parseError
    | some [] => .error .emptyRequest
    | some pts => .ok (decide (uriParts.headD [] = checkmempoolTok), pts, true)

/-- The shared binary-input stage (the `RF_BINARY` case, which the
`RF_HEX` case falls through to after hex-decoding the body): an empty
effective body keeps the URI-derived inputs; a non-empty body is
refused when URI inputs were parsed, and otherwise deserialized,
replacing both `fCheckMemPool` and `vOutPoints`. -/
def binStage (effBody : List Nat) (fcm : Bool) (pts : List COutPoint)
    (fInputParsed : Bool) : Except RestErr (Bool × List COutPoint) :=
  if effBody.length = 0 then .ok (fcm, pts)
  else if fInputParsed then .error .combinationNotAllowed
  else
    match deserializePost effBody with
    | some (f, v) => .ok (f, v)
    | none => .error .parseError

/-- The format switch of the parsing phase. -/
def formatStage (rf : RetFormat) (body : List Nat) (fcm : Bool)
    (pts : List COutPoint) (fInputParsed : Bool) :
    Except RestErr (Bool × List COutPoint) :=
  match rf with
  | .RF_HEX => binStage (parseHexBytesB body) fcm pts fInputParsed
  | .RF_BINARY => binStage body fcm pts fInputParsed
  | .RF_JSON => if !fInputParsed then .error .emptyRequest else .ok (fcm, pts)
  | .RF_UNDEF => .error .formatNotFound

/-- Everything `rest_getutxos` does before the outpoint-limit check:
the empty-request guard on the raw body and URI, the URI input stage,
then the format switch. -/
def parsePhase (rf : RetFormat) (uriParts : List (List Char)) (body : List Nat) :
    Except RestErr (Bool × List COutPoint) :=
  if body.length = 0 ∧ uriParts.length = 0 then .error .emptyRequest
  else
    match uriStage uriParts with
    | .error e => .error e
    | .ok (fcm, pts, fip) => formatStage rf body fcm pts fip

/-! ## Response serialization and the handler -/

/-- `MAX_GETUTXOS_OUTPOINTS` from `rest.cpp`. -/
def MAX_GETUTXOS_OUTPOINTS : Nat := 15

/-- The binary response stream: `ssGetUTXOResponse <<
chainActive.Height() << chainActive.Tip()->GetBlockHash() << bitmap <<
outs`. -/
def getutxosBinResponse (s : LedgerState) (bitmap : List Nat) (outs : List CCoin) :
    List Nat :=
  serInt32LE s.chainHeight ++ serUInt256LE s.tipHash ++ serBytesV bitmap
    ++ serVector serCCoin outs

inductive UtxosResponse
  | bin (payload : List Nat)
  | hexText (payload : List Char)
  | jsonDoc (chainHeight : Int) (tipHash : Nat) (bitmap : List Char) (utxos : List CCoin)
  deriving DecidableEq, Repr

/-- The whole `rest_getutxos` handler over a ledger state: parsing, the
outpoint cap, the spentness loop, and the per-format response.  The
state is returned alongside the response; no branch writes to it. -/
def rest_getutxos (s : LedgerState) (rf : RetFormat) (uriParts : List (List Char))
    (body : List Nat) : Except RestErr UtxosResponse × LedgerState :=
  match parsePhase rf uriParts body with
  | .error e => (.error e, s)
  | .ok (fcm, pts) =>
    if MAX_GETUTXOS_OUTPOINTS < pts.length then
      (.error (.maxOutpointsExceeded pts.length), s)
    else
      let r := lookupLoop s fcm pts
      match rf with
      | .RF_BINARY => (.ok (.bin (getutxosBinResponse s (buildBitmap r.1) r.2)), s)
      | .RF_HEX =>
        (.ok (.hexText (hexStrChars (getutxosBinResponse s (buildBitmap r.1) r.2) ++ ['\n'])), s)
      | .RF_JSON =>
        (.ok (.jsonDoc s.chainHeight s.tipHash (bitmapStringRepresentation r.1) r.2), s)
      | .RF_UNDEF => (.error .formatNotFound, s)

/-! ## Spec-side response layout (for the refinement claims) -/

/-- The serialization of one coin record as the spec words it: "each
coin record as (dummy version tag, height, output)" with the dummy tag
the constant 0 and the output its value then script.  This definition
follows the spec's words, to be compared with `serCCoin`. -/
def specCoinRecord (c : CCoin) : List Nat :=
  [0, 0, 0, 0] ++ serUInt32LE c.nHeight
    ++ (serInt64LE c.out.nValue ++ serCompactSize c.out.scriptPubKey.length ++ c.out.scriptPubKey)

/-- The binary layout as the spec words it: "chain height, then
chain-tip hash, then bitmap, then coin records".  This definition
follows the spec's words, to be compared with the handler's stream
output. -/
def specGetutxosLayout (height : Int) (tip : Nat) (bitmap : List Nat)
    (outs : List CCoin) : List Nat :=
  serInt32LE height ++ serUInt256LE tip
    ++ (serCompactSize bitmap.length ++ bitmap)
    ++ (serCompactSize outs.length ++ (outs.map specCoinRecord).flatten)

/-- The hex response of a binary payload: its hex encoding plus a
trailing newline. -/
def hexifyResp : UtxosResponse → UtxosResponse
  | .bin p => .hexText (hexStrChars p ++ ['\n'])
  | r => r

/-- Decidable success test on a handler outcome. -/
def exceptIsOk {ε α : Type} : Except ε α → Bool
  | .ok _ => true
  | .error _ => false

/-! ## Derived views of the lookup loop and concrete scenario data -/

/-- The hit condition of the lookup loop, per outpoint: the view finds a
coin and the mempool does not record the outpoint spent. -/
def hitB (s : LedgerState) (fcm : Bool) (p : COutPoint) : Bool :=
  (viewGetCoin s fcm p).isSome && !(mempoolIsSpent s.mempool p)

/-- The coin record a hit appends (arbitrary on a miss, which the loop
never uses). -/
def ccoinAt (s : LedgerState) (fcm : Bool) (p : COutPoint) : CCoin :=
  match viewGetCoin s fcm p with
  | some c => ⟨c.nHeight, c.out⟩
  | none => ⟨0, ⟨0, []⟩⟩

/-- A URI part the outpoint loop rejects: an output-index field that
does not parse as an `int32`, or a txid field that is not hex. -/
def badURIPart (part : List Char) : Prop :=
  parseInt32 (afterDash part) = none ∨ isHexStr (beforeDash part) = false

/-- The spec's end-to-end scenario script bytes. -/
def scenScript : List Nat := [118, 169]

/-- The spec's end-to-end scenario chain tip hash. -/
def scenTip : Nat := 57005

/-- The spec's end-to-end scenario ledger: `T1 = 0xaa` confirmed
unspent at height 100 with value 500000; `T2 = 0xbb` output 3 already
spent, i.e. absent from the UTXO set; empty mempool; tip height 100. -/
def scenState : LedgerState :=
  ⟨[(⟨170, 0⟩, ⟨⟨500000, scenScript⟩, 100⟩)], ⟨[], []⟩, 100, scenTip⟩

/-- The scenario query `{(T1,0), (T2,3)}` over the URI scheme with the
mempool overlay requested. -/
def scenURI : List (List Char) :=
  ["checkmempool".toList, "aa-0".toList, "bb-3".toList]

/-- A ledger whose mempool holds one pooled transaction (txid 9, one
output) that is absent from the authoritative UTXO set. -/
def overlayState : LedgerState :=
  ⟨[], ⟨[(9, [⟨777, [81]⟩])], []⟩, 5, 1⟩

/-! # Theorems -/

/-! ## Bitmap lemmas -/

theorem getD_zero_eq (l : List Nat) (k : Nat) : l.getD k 0 = (l[k]?).getD 0 :=
  List.getD_eq_getElem?_getD l k 0

theorem bitmapWrite_length (bm : List Nat) (i : Nat) (h : Bool) :
    (bitmapWrite bm i h).length = bm.length := by
  simp [bitmapWrite]

theorem testBit_one (k : Nat) : Nat.testBit 1 k = decide (k = 0) := by
  cases k with
  | zero => decide
  | succ n => simp [Nat.testBit_succ, Nat.zero_testBit]

theorem testBit_condbit (h : Bool) (m b : Nat) :
    Nat.testBit ((cond h 1 0) <<< m) b = (h && decide (b = m)) := by
  rw [Nat.testBit_shiftLeft]
  cases h with
  | false => simp [Nat.zero_testBit]
  | true =>
    simp only [cond_true, testBit_one, Bool.true_and]
    rcases Nat.lt_or_ge b m with hlt | hge
    · have h1 : ¬ b ≥ m := by omega
      have h2 : ¬ b = m := by omega
      simp [h1, h2]
    · have h2 : (b - m = 0) = (b = m) := by
        apply propext; omega
      simp [hge, h2]

theorem testBit_or_condbit_ne (x : Nat) (h : Bool) (m b : Nat) (hne : b ≠ m) :
    Nat.testBit (x ||| (cond h 1 0) <<< m) b = Nat.testBit x b := by
  rw [Nat.testBit_or, testBit_condbit]
  simp [hne]

theorem getD_set_self_of_lt (l : List Nat) (i x : Nat) (hi : i < l.length) :
    (l.set i x).getD i 0 = x := by
  rw [getD_zero_eq, List.getElem?_set_self hi]
  rfl

theorem getD_set_ne_idx (l : List Nat) (i k x : Nat) (h : i ≠ k) :
    (l.set i x).getD k 0 = l.getD k 0 := by
  rw [getD_zero_eq, List.getElem?_set_ne h, ← getD_zero_eq]

theorem bitmapWrite_bit_other (bm : List Nat) (j : Nat) (h : Bool) (pos : Nat)
    (hne : pos ≠ j) :
    Nat.testBit ((bitmapWrite bm j h).getD (pos / 8) 0) (pos % 8)
      = Nat.testBit (bm.getD (pos / 8) 0) (pos % 8) := by
  unfold bitmapWrite
  by_cases hb : j / 8 = pos / 8
  · have hbit : pos % 8 ≠ j % 8 := by omega
    by_cases hlen : j / 8 < bm.length
    · have hset : (bm.set (j / 8) (bm.getD (j / 8) 0 ||| (cond h 1 0) <<< (j % 8))).getD (pos / 8) 0
          = bm.getD (j / 8) 0 ||| (cond h 1 0) <<< (j % 8) := by
        rw [← hb]
        exact getD_set_self_of_lt bm (j / 8) _ hlen
      rw [hset, testBit_or_condbit_ne _ h _ _ hbit, hb]
    · rw [List.set_eq_of_length_le (by omega)]
  · rw [getD_set_ne_idx bm (j / 8) (pos / 8) _ hb]

theorem bitmapWrite_bit_self (bm : List Nat) (j : Nat) (h : Bool)
    (hlen : j / 8 < bm.length) :
    Nat.testBit ((bitmapWrite bm j h).getD (j / 8) 0) (j % 8)
      = (h || Nat.testBit (bm.getD (j / 8) 0) (j % 8)) := by
  unfold bitmapWrite
  rw [getD_set_self_of_lt bm (j / 8) _ hlen, Nat.testBit_or, testBit_condbit]
  simp [Bool.or_comm]

theorem bitmapLoopGo_bit_preserved (t : List Bool) (bm : List Nat) (start pos : Nat)
    (hlt : pos < start) :
    Nat.testBit ((bitmapLoopGo bm t start).getD (pos / 8) 0) (pos % 8)
      = Nat.testBit (bm.getD (pos / 8) 0) (pos % 8) := by
  induction t generalizing bm start with
  | nil => rfl
  | cons h tl ih =>
    rw [bitmapLoopGo, ih (bitmapWrite bm start h) (start + 1) (by omega)]
    exact bitmapWrite_bit_other bm start h pos (by omega)

theorem bitmapLoopGo_bit (hits : List Bool) (bm : List Nat) (start i : Nat)
    (hi : i < hits.length)
    (hlen : ∀ m, m < hits.length → (start + m) / 8 < bm.length) :
    Nat.testBit ((bitmapLoopGo bm hits start).getD ((start + i) / 8) 0) ((start + i) % 8)
      = (hits.getD i false || Nat.testBit (bm.getD ((start + i) / 8) 0) ((start + i) % 8)) := by
  induction hits generalizing bm start i with
  | nil => simp at hi
  | cons h tl ih =>
    cases i with
    | zero =>
      rw [bitmapLoopGo, bitmapLoopGo_bit_preserved tl _ (start + 1) (start + 0) (by omega)]
      simp only [Nat.add_zero]
      rw [bitmapWrite_bit_self bm start h (by simpa using hlen 0 (by simp))]
      simp [List.getD]
    | succ j =>
      rw [bitmapLoopGo]
      have hj : j < tl.length := by simpa using hi
      have hlen' : ∀ m, m < tl.length → (start + 1 + m) / 8 < (bitmapWrite bm start h).length := by
        intro m hm
        rw [bitmapWrite_length]
        have := hlen (m + 1) (by simp; omega)
        have harith : start + (m + 1) = start + 1 + m := by omega
        rwa [harith] at this
      have harith : start + (j + 1) = start + 1 + j := by omega
      rw [harith, ih (bitmapWrite bm start h) (start + 1) j hj hlen']
      rw [bitmapWrite_bit_other bm start h (start + 1 + j) (by omega)]
      simp [List.getD]

theorem buildBitmap_testBit (hits : List Bool) (i : Nat) (hi : i < hits.length) :
    Nat.testBit ((buildBitmap hits).getD (i / 8) 0) (i % 8) = hits.getD i false := by
  unfold buildBitmap
  have hlen : ∀ m, m < hits.length →
      (0 + m) / 8 < (List.replicate ((hits.length + 7) / 8) 0).length := by
    intro m hm
    simp only [List.length_replicate, Nat.zero_add]
    calc m / 8 < m / 8 + 1 := by omega
      _ = (m + 8) / 8 := (Nat.add_div_right m (by omega)).symm
      _ ≤ (hits.length + 7) / 8 := Nat.div_le_div_right (by omega)
  have hmain := bitmapLoopGo_bit hits _ 0 i hi hlen
  simp only [Nat.zero_add] at hmain
  rw [hmain, getD_zero_eq, List.getElem?_replicate]
  by_cases hcase : i / 8 < (hits.length + 7) / 8
  · simp [hcase, Nat.zero_testBit]
  · simp [hcase, Nat.zero_testBit]

/-! ## Lookup loop characterization -/

theorem lookupLoop_eq (s : LedgerState) (fcm : Bool) (pts : List COutPoint) :
    lookupLoop s fcm pts
      = (pts.map (hitB s fcm), (pts.filter (hitB s fcm)).map (ccoinAt s fcm)) := by
  induction pts with
  | nil => rfl
  | cons p rest ih =>
    rw [lookupLoop, ih]
    cases hv : viewGetCoin s fcm p with
    | some c =>
      cases hs : mempoolIsSpent s.mempool p with
      | false => simp [hitB, ccoinAt, hv, hs, List.filter_cons]
      | true => simp [hitB, hv, hs, List.filter_cons]
    | none => simp [hitB, hv, List.filter_cons]

/-! ## URI parsing lemmas -/

theorem parseURIOutpoints_none_of_bad (parts : List (List Char))
    (hbad : ∃ part ∈ parts, badURIPart part) :
    parseURIOutpoints parts = none := by
  induction parts with
  | nil =>
    rcases hbad with ⟨p, hp, _⟩
    cases hp
  | cons p rest ih =>
    rcases hbad with ⟨q, hq, hbadq⟩
    rcases List.mem_cons.mp hq with hq1 | hq2
    · subst hq1
      rw [parseURIOutpoints]
      rcases hbadq with h1 | h2
      · rw [h1]
      · cases hpi : parseInt32 (afterDash q) with
        | none => rfl
        | some n => rw [h2]
    · rw [parseURIOutpoints]
      cases hpi : parseInt32 (afterDash p) with
      | none => rfl
      | some n =>
        cases hhx : isHexStr (beforeDash p) with
        | false => rfl
        | true => rw [ih ⟨q, hq2, hbadq⟩]; rfl

/-! ## Serialization refinement lemmas -/

theorem serCCoin_eq_specCoinRecord (c : CCoin) : serCCoin c = specCoinRecord c := by
  have h0 : serUInt32LE 0 = [0, 0, 0, 0] := rfl
  rw [serCCoin, specCoinRecord, serTxOut, serBytesV, h0]
  simp [List.append_assoc]

theorem getutxosBinResponse_eq_spec (s : LedgerState) (bitmap : List Nat)
    (outs : List CCoin) :
    getutxosBinResponse s bitmap outs
      = specGetutxosLayout s.chainHeight s.tipHash bitmap outs := by
  have hf : serCCoin = specCoinRecord := funext serCCoin_eq_specCoinRecord
  rw [getutxosBinResponse, specGetutxosLayout, serBytesV, serVector, hf]

/-! ## Hex round-trip lemmas -/

theorem hexDigitValB_hexCharByte (n : Nat) (h : n < 16) :
    hexDigitValB (hexCharByte n) = some n := by
  interval_cases n <;> rfl

theorem isSpaceB_hexCharByte (n : Nat) (h : n < 16) :
    isSpaceB (hexCharByte n) = false := by
  interval_cases n <;> rfl

theorem parseHex_roundtrip (bs : List Nat) (h : ∀ b ∈ bs, b < 256) :
    parseHexBytesB (hexEncodeBytes bs) = bs := by
  induction bs with
  | nil => rfl
  | cons b rest ih =>
    have hb : b < 256 := h b (List.mem_cons_self b rest)
    have h16a : b / 16 % 16 = b / 16 := Nat.mod_eq_of_lt (by omega)
    have hhi : b / 16 < 16 := by omega
    have hlo : b % 16 < 16 := Nat.mod_lt b (by omega)
    have hexp : hexEncodeBytes (b :: rest)
        = hexCharByte (b / 16 % 16) :: hexCharByte (b % 16) :: hexEncodeBytes rest := by
      simp [hexEncodeBytes]
    rw [hexp, h16a, parseHexBytesB]
    simp only [isSpaceB_hexCharByte _ hhi, Bool.false_eq_true, if_false,
      hexDigitValB_hexCharByte _ hhi, hexDigitValB_hexCharByte _ hlo]
    rw [ih (fun x hx => h x (List.mem_cons_of_mem b hx))]
    have hdm : 16 * (b / 16) + b % 16 = b := by omega
    rw [hdm]

/-! ## Parse-phase equivalence of the hex and binary formats -/

theorem hexEncodeBytes_length (bs : List Nat) :
    (hexEncodeBytes bs).length = 2 * bs.length := by
  induction bs with
  | nil => rfl
  | cons b rest ih =>
    have hexp : hexEncodeBytes (b :: rest)
        = hexCharByte (b / 16 % 16) :: hexCharByte (b % 16) :: hexEncodeBytes rest := by
      simp [hexEncodeBytes]
    rw [hexp]
    simp only [List.length_cons]
    omega

theorem parsePhase_hex_eq_bin (u : List (List Char)) (B : List Nat)
    (hB : ∀ b ∈ B, b < 256) :
    parsePhase .RF_HEX u (hexEncodeBytes B) = parsePhase .RF_BINARY u B := by
  unfold parsePhase
  have hlen : (hexEncodeBytes B).length = 2 * B.length := hexEncodeBytes_length B
  by_cases hc : B.length = 0 ∧ u.length = 0
  · have hc2 : (hexEncodeBytes B).length = 0 ∧ u.length = 0 := ⟨by omega, hc.2⟩
    rw [if_pos hc2, if_pos hc]
  · have hc2 : ¬ ((hexEncodeBytes B).length = 0 ∧ u.length = 0) := by
      intro hx
      exact hc ⟨by omega, hx.2⟩
    rw [if_neg hc2, if_neg hc]
    cases huri : uriStage u with
    | error e => rfl
    | ok v =>
      obtain ⟨fcm, pts, fip⟩ := v
      show formatStage .RF_HEX (hexEncodeBytes B) fcm pts fip
        = formatStage .RF_BINARY B fcm pts fip
      unfold formatStage
      rw [parseHex_roundtrip B hB]

/-! ## LLMQ lifecycle safety lemmas -/

theorem llmqStep_safe (s : LLMQState) (op : LLMQOp) (hinv : LLMQInv s) :
    (llmqStep s op).2 = false ∧ LLMQInv (llmqStep s op).1 := by
  obtain ⟨hworker, hfreed⟩ := hinv
  cases op with
  | opInit =>
    refine ⟨rfl, ?_, ?_⟩
    · intro id hid
      have hid2 : s.nextId = id := Option.some.inj hid
      subst hid2
      refine ⟨fun hmem => ?_, Nat.lt_succ_self _⟩
      exact absurd (hfreed _ hmem) (by omega)
    · intro f hf
      exact Nat.lt_succ_of_lt (hfreed f hf)
  | opStart =>
    cases hw : s.blsWorker with
    | none =>
      have hstep : llmqStep s .opStart = (s, false) := by
        simp [llmqStep, StartLLMQSystem, hw]
      rw [hstep]
      exact ⟨rfl, hworker, hfreed⟩
    | some id =>
      have hnot : id ∉ s.freed := (hworker id hw).1
      have hstep : llmqStep s .opStart = (s, false) := by
        simp [llmqStep, StartLLMQSystem, hw, hnot]
      rw [hstep]
      exact ⟨rfl, hworker, hfreed⟩
  | opStop =>
    cases hw : s.blsWorker with
    | none =>
      have hstep : llmqStep s .opStop = (s, false) := by
        simp [llmqStep, StopLLMQSystem, hw]
      rw [hstep]
      exact ⟨rfl, hworker, hfreed⟩
    | some id =>
      have hnot : id ∉ s.freed := (hworker id hw).1
      have hstep : llmqStep s .opStop = (s, false) := by
        simp [llmqStep, StopLLMQSystem, hw, hnot]
      rw [hstep]
      exact ⟨rfl, hworker, hfreed⟩
  | opDestroy =>
    cases hw : s.blsWorker with
    | none =>
      have hstep : llmqStep s .opDestroy = (⟨none, s.freed, s.nextId⟩, false) := by
        simp [llmqStep, DestroyLLMQSystem, hw]
      rw [hstep]
      refine ⟨rfl, ?_, hfreed⟩
      intro i hi
      simp at hi
    | some id =>
      have hnot : id ∉ s.freed := (hworker id hw).1
      have hlt : id < s.nextId := (hworker id hw).2
      have hstep : llmqStep s .opDestroy = (⟨none, id :: s.freed, s.nextId⟩, false) := by
        simp [llmqStep, DestroyLLMQSystem, hw, hnot]
      rw [hstep]
      refine ⟨rfl, ?_, ?_⟩
      · intro i hi
        simp at hi
      · intro f hf
        rcases List.mem_cons.mp hf with h1 | h2
        · exact h1 ▸ hlt
        · exact hfreed f h2

theorem llmqRun_safe (ops : List LLMQOp) (s : LLMQState) (hinv : LLMQInv s) :
    (llmqRun s ops).2 = false := by
  induction ops generalizing s with
  | nil => rfl
  | cons op rest ih =>
    have h := llmqStep_safe s op hinv
    simp only [llmqRun, h.1, ih _ h.2, Bool.or_false]

/-! ## Uniqueness Index lemma -/

theorem any_eq_filter_ne (l : List (Nat × Nat)) (f : Nat) :
    (l.filter (fun e => decide (e.1 ≠ f))).any (fun e => decide (e.1 = f)) = false := by
  induction l with
  | nil => rfl
  | cons e rest ih =>
    by_cases he : e.1 = f
    · simp [List.filter_cons, he, ih]
    · simp [List.filter_cons, he, ih]

/-! ## Claim theorems -/

/-- C1: for the legacy shielded stake-input variant, `CreateTxIn`,
`CreateTxOuts` and `GetTxOutFrom` return the fixed negative result
(`false`) for every possible argument; the result does not depend on
the input in any way. -/
theorem claim_C1_shielded_creation_disabled :
    ∀ (st : CLegacyZFlsStake) (w : CWallet) (t : CTxIn) (hashTxOut : Nat)
      (vout : List CTxOut) (nTotal : Int) (onlyP2PK : Bool) (o : CTxOut),
      (st.CreateTxIn w t hashTxOut).1 = false
        ∧ (st.CreateTxOuts w vout nTotal onlyP2PK).1 = false
        ∧ (st.GetTxOutFrom o).1 = false := by
  intro st w t hashTxOut vout nTotal onlyP2PK o
  exact ⟨rfl, rfl, rfl⟩

/-- C8: on the Uniqueness Index, a second `Insert` of the same
fingerprint without an intervening `Remove` fails, and `Remove` after
`Insert` makes `Contains` false again. -/
theorem claim_C8_uniqueness_index (idx : UniquenessIndex) (f h1 h2 : Nat)
    (idx' : UniquenessIndex) (hins : idx.Insert f h1 = some idx') :
    idx'.Insert f h2 = none ∧ (idx'.Remove f).Contains f = false := by
  unfold UniquenessIndex.Insert at hins
  by_cases hc : idx.Contains f
  · simp [hc] at hins
  · simp only [hc, Bool.false_eq_true, if_false, Option.some.injEq] at hins
    subst hins
    constructor
    · unfold UniquenessIndex.Insert UniquenessIndex.Contains
      simp
    · unfold UniquenessIndex.Remove UniquenessIndex.Contains
      exact any_eq_filter_ne _ f

/-- C8 witness: a concrete insert-twice/insert-remove run. -/
theorem claim_C8_witness :
    UniquenessIndex.Insert ⟨[(7, 1)]⟩ 7 2 = none
      ∧ (UniquenessIndex.Remove ⟨[(7, 1)]⟩ 7).Contains 7 = false :=
  claim_C8_uniqueness_index ⟨[]⟩ 7 1 2 ⟨[(7, 1)]⟩ (by decide)

/-- C10: `StartLLMQSystem` and `StopLLMQSystem` are no-ops on a null
worker pointer, `DestroyLLMQSystem` leaves the pointer null, and no
call order of Init/Start/Stop/Destroy from process start dereferences a
null or deleted worker. -/
theorem claim_C10_llmq_lifecycle_safe :
    (∀ s : LLMQState, s.blsWorker = none →
        StartLLMQSystem s = (s, false) ∧ StopLLMQSystem s = (s, false))
      ∧ (∀ s : LLMQState, (DestroyLLMQSystem s).1.blsWorker = none)
      ∧ (∀ ops : List LLMQOp, (llmqRun initLLMQState ops).2 = false) := by
  refine ⟨?_, ?_, ?_⟩
  · intro s hs
    constructor
    · unfold StartLLMQSystem
      rw [hs]
    · unfold StopLLMQSystem
      rw [hs]
  · intro s
    unfold DestroyLLMQSystem
    cases s.blsWorker <;> rfl
  · intro ops
    refine llmqRun_safe ops initLLMQState ⟨?_, ?_⟩
    · intro id hid
      simp [initLLMQState] at hid
    · intro f hf
      simp [initLLMQState] at hf

/-- C10 witness: the guards at the concrete null-pointer start state,
and a concrete full lifecycle run. -/
theorem claim_C10_witness :
    (StartLLMQSystem initLLMQState = (initLLMQState, false)
        ∧ StopLLMQSystem initLLMQState = (initLLMQState, false))
      ∧ (llmqRun initLLMQState
          [.opStart, .opInit, .opStart, .opStop, .opDestroy, .opStart, .opInit, .opDestroy]).2
          = false :=
  ⟨claim_C10_llmq_lifecycle_safe.1 initLLMQState rfl,
    claim_C10_llmq_lifecycle_safe.2.2
      [.opStart, .opInit, .opStart, .opStop, .opDestroy, .opStart, .opInit, .opDestroy]⟩

/-- C2: bit `i` of the `getutxos` response bitmap is 1 iff outpoint `i`
is found by a `GetCoin` lookup through the (possibly overlay-backed)
per-request coin view and is not recorded spent by a pooled mempool
transaction; exactly one coin record per hit is appended, in query
order; and on the spec's scenario `{(T1,0), (T2,3)}` the bitmap string
is "10" with exactly one coin record of height 100 and value 500000. -/
theorem claim_C2_getutxos_bitmap :
    (∀ (s : LedgerState) (fcm : Bool) (pts : List COutPoint) (i : Nat),
        i < pts.length →
          (((lookupLoop s fcm pts).1.getD i false = true ↔
              ((viewGetCoin s fcm (pts.getD i ⟨0, 0⟩)).isSome = true
                ∧ mempoolIsSpent s.mempool (pts.getD i ⟨0, 0⟩) = false))
            ∧ Nat.testBit ((buildBitmap (lookupLoop s fcm pts).1).getD (i / 8) 0) (i % 8)
                = (lookupLoop s fcm pts).1.getD i false
            ∧ (lookupLoop s fcm pts).2
                = (pts.filter (hitB s fcm)).map (ccoinAt s fcm)))
      ∧ rest_getutxos scenState .RF_JSON scenURI []
          = (.ok (.jsonDoc 100 scenTip ['1', '0'] [⟨100, ⟨500000, scenScript⟩⟩]), scenState) := by
  constructor
  · intro s fcm pts i hi
    have hloop := lookupLoop_eq s fcm pts
    have hlen : (lookupLoop s fcm pts).1.length = pts.length := by
      rw [hloop]
      simp
    refine ⟨?_, ?_, ?_⟩
    · rw [hloop]
      have hmap : (pts.map (hitB s fcm)).getD i false = hitB s fcm (pts.getD i ⟨0, 0⟩) := by
        rw [List.getD_eq_getElem?_getD, List.getElem?_map (hitB s fcm) pts i,
          List.getElem?_eq_getElem hi, List.getD_eq_getElem?_getD,
          List.getElem?_eq_getElem hi]
        rfl
      rw [hmap]
      simp [hitB]
    · exact buildBitmap_testBit (lookupLoop s fcm pts).1 i (by rw [hlen]; exact hi)
    · rw [hloop]
  · rfl

/-- C2 witness: the general part instantiated at the scenario's first
queried outpoint. -/
theorem claim_C2_witness :
    ((lookupLoop scenState true [⟨170, 0⟩, ⟨187, 3⟩]).1.getD 0 false = true ↔
        ((viewGetCoin scenState true (([⟨170, 0⟩, ⟨187, 3⟩] : List COutPoint).getD 0 ⟨0, 0⟩)).isSome = true
          ∧ mempoolIsSpent scenState.mempool
              (([⟨170, 0⟩, ⟨187, 3⟩] : List COutPoint).getD 0 ⟨0, 0⟩) = false))
      ∧ Nat.testBit ((buildBitmap (lookupLoop scenState true [⟨170, 0⟩, ⟨187, 3⟩]).1).getD (0 / 8) 0) (0 % 8)
          = (lookupLoop scenState true [⟨170, 0⟩, ⟨187, 3⟩]).1.getD 0 false
      ∧ (lookupLoop scenState true [⟨170, 0⟩, ⟨187, 3⟩]).2
          = (([⟨170, 0⟩, ⟨187, 3⟩] : List COutPoint).filter (hitB scenState true)).map
              (ccoinAt scenState true) :=
  claim_C2_getutxos_bitmap.1 scenState true [⟨170, 0⟩, ⟨187, 3⟩] 0 (by decide)

/-- C3: a `getutxos` query never changes the ledger state (the backend
swap happens only on the disposable per-request view), and an outpoint
synthesized by the mempool overlay is invisible to a fresh view over
only the authoritative backend. -/
theorem claim_C3_overlay_frame :
    (∀ (s : LedgerState) (rf : RetFormat) (u : List (List Char)) (b : List Nat),
        (rest_getutxos s rf u b).2 = s)
      ∧ (∀ (s : LedgerState) (p : COutPoint) (outs : List CTxOut)
          (hmp : mempoolGetTx s.mempool p.hash = some outs)
          (hn : p.n < outs.length),
          baseGetCoin s.utxo p = none →
            mempoolViewGetCoin s p = some ⟨outs.get ⟨p.n, hn⟩, MEMPOOL_HEIGHT⟩
              ∧ freshAuthViewGetCoin s.utxo p = none) := by
  constructor
  · intro s rf u b
    unfold rest_getutxos
    split
    · rfl
    · dsimp only
      split
      · rfl
      · split <;> rfl
  · intro s p outs hmp hn hbase
    constructor
    · unfold mempoolViewGetCoin
      rw [hmp]
      simp [hn]
    · exact hbase

/-- C3 witness: the frame at a concrete query, and a concrete pooled
output visible through the overlay but not through the authoritative
backend alone. -/
theorem claim_C3_witness :
    (rest_getutxos overlayState .RF_JSON scenURI []).2 = overlayState
      ∧ (mempoolViewGetCoin overlayState ⟨9, 0⟩ = some ⟨⟨777, [81]⟩, MEMPOOL_HEIGHT⟩
          ∧ freshAuthViewGetCoin overlayState.utxo ⟨9, 0⟩ = none) :=
  ⟨claim_C3_overlay_frame.1 overlayState .RF_JSON scenURI [],
    claim_C3_overlay_frame.2 overlayState ⟨9, 0⟩ [⟨777, [81]⟩] (by decide) (by decide)
      (by decide)⟩

/-- C4: a parsed `getutxos` request with more than 15 outpoints is
rejected before any lookup with the max-outpoints error and an
unchanged state, while a request with at most 15 outpoints passes the
limit check. -/
theorem claim_C4_outpoint_limit (s : LedgerState) (rf : RetFormat)
    (u : List (List Char)) (b : List Nat) (fcm : Bool) (pts : List COutPoint)
    (hp : parsePhase rf u b = .ok (fcm, pts)) :
    (MAX_GETUTXOS_OUTPOINTS < pts.length →
        rest_getutxos s rf u b = (.error (.maxOutpointsExceeded pts.length), s))
      ∧ (pts.length ≤ MAX_GETUTXOS_OUTPOINTS →
          ∀ k, (rest_getutxos s rf u b).1 ≠ .error (.maxOutpointsExceeded k)) := by
  constructor
  · intro h
    simp [rest_getutxos, hp, h]
  · intro h k
    have hnl : ¬ MAX_GETUTXOS_OUTPOINTS < pts.length := by omega
    cases rf <;> simp [rest_getutxos, hp, hnl]

/-- C4 witness: a concrete 16-outpoint request is rejected with the
limit error; a concrete 1-outpoint request passes the limit check. -/
theorem claim_C4_witness :
    rest_getutxos scenState .RF_JSON (List.replicate 16 ("aa-0".toList)) []
        = (.error (.maxOutpointsExceeded 16), scenState)
      ∧ ∀ k, (rest_getutxos scenState .RF_JSON ["aa-0".toList] []).1
          ≠ .error (.maxOutpointsExceeded k) :=
  ⟨(claim_C4_outpoint_limit scenState .RF_JSON (List.replicate 16 ("aa-0".toList)) []
      false (List.replicate 16 ⟨170, 0⟩) (by rfl)).1 (by decide),
    (claim_C4_outpoint_limit scenState .RF_JSON ["aa-0".toList] []
      false [⟨170, 0⟩] (by rfl)).2 (by decide)⟩

/-- C5: every successful binary-format `getutxos` response payload is
exactly the serialization of the chain height, then the chain-tip block
hash, then the bitmap bytes, then the hit coin records, each record a
dummy version tag 0, the coin's height and its output. -/
theorem claim_C5_binary_layout (s : LedgerState) (u : List (List Char)) (b : List Nat)
    (fcm : Bool) (pts : List COutPoint)
    (hp : parsePhase .RF_BINARY u b = .ok (fcm, pts))
    (hlim : pts.length ≤ MAX_GETUTXOS_OUTPOINTS) :
    (rest_getutxos s .RF_BINARY u b).1
      = .ok (.bin (specGetutxosLayout s.chainHeight s.tipHash
          (buildBitmap (lookupLoop s fcm pts).1) (lookupLoop s fcm pts).2)) := by
  have hnl : ¬ MAX_GETUTXOS_OUTPOINTS < pts.length := by omega
  simp [rest_getutxos, hp, hnl, getutxosBinResponse_eq_spec]

/-- C5 witness: the layout of a concrete successful binary request. -/
theorem claim_C5_witness :
    (rest_getutxos scenState .RF_BINARY ["checkmempool".toList, "aa-0".toList] []).1
      = .ok (.bin (specGetutxosLayout scenState.chainHeight scenState.tipHash
          (buildBitmap (lookupLoop scenState true [⟨170, 0⟩]).1)
          (lookupLoop scenState true [⟨170, 0⟩]).2)) :=
  claim_C5_binary_layout scenState ["checkmempool".toList, "aa-0".toList] []
    true [⟨170, 0⟩] (by rfl) (by decide)

/-- C6: the hex-format response is the hex encoding of the
binary-format response for the same request (the hex request carrying
the hex encoding of the binary request's body) followed by a trailing
newline, with errors identical; the two formats serialize the identical
byte layout. -/
theorem claim_C6_hex_equals_binary (s : LedgerState) (u : List (List Char))
    (B : List Nat) (hB : ∀ x ∈ B, x < 256) :
    rest_getutxos s .RF_HEX u (hexEncodeBytes B)
      = (Except.map hexifyResp (rest_getutxos s .RF_BINARY u B).1, s) := by
  unfold rest_getutxos
  rw [parsePhase_hex_eq_bin u B hB]
  cases hp : parsePhase .RF_BINARY u B with
  | error e => rfl
  | ok v =>
    obtain ⟨fcm, pts⟩ := v
    by_cases hlim : MAX_GETUTXOS_OUTPOINTS < pts.length
    · simp [hlim, Except.map]
    · simp [hlim, Except.map, hexifyResp]

/-- C6 witness: the hex/binary agreement on a concrete request. -/
theorem claim_C6_witness :
    rest_getutxos scenState .RF_HEX scenURI (hexEncodeBytes [])
      = (Except.map hexifyResp (rest_getutxos scenState .RF_BINARY scenURI []).1,
          scenState) :=
  claim_C6_hex_equals_binary scenState scenURI [] (by decide)

/-- C7: a `getutxos` request with a malformed URI outpoint (non-hex
txid or an output index that does not parse as an `int32`), or a
binary request whose posted body does not deserialize, is rejected with
a parse error before any coin lookup, with the ledger state
unchanged. -/
theorem claim_C7_malformed_rejected :
    (∀ (s : LedgerState) (rf : RetFormat) (u : List (List Char)) (b : List Nat)
        (part : List Char), part ∈ uriScannedParts u → badURIPart part →
          rest_getutxos s rf u b = (.error .parseError, s))
      ∧ (∀ (s : LedgerState) (b : List Nat), b ≠ [] → deserializePost b = none →
          rest_getutxos s .RF_BINARY [] b = (.error .parseError, s)) := by
  constructor
  · intro s rf u b part hmem hbad
    have hune : u ≠ [] := by
      intro h
      subst h
      simp [uriScannedParts, checkmempoolTok] at hmem
    have huri : uriStage u = .error .parseError := by
      unfold uriStage
      rw [if_neg (by simpa [List.isEmpty_iff] using hune)]
      rw [parseURIOutpoints_none_of_bad _ ⟨part, hmem, hbad⟩]
    have hpp : parsePhase rf u b = .error .parseError := by
      unfold parsePhase
      have hcond : ¬ (b.length = 0 ∧ u.length = 0) := by
        intro hx
        exact hune (List.length_eq_zero.mp hx.2)
      rw [if_neg hcond, huri]
    simp [rest_getutxos, hpp]
  · intro s b hb hdes
    have hpp : parsePhase .RF_BINARY [] b = .error .parseError := by
      unfold parsePhase
      have hcond : ¬ (b.length = 0 ∧ ([] : List (List Char)).length = 0) := by
        intro hx
        exact hb (List.length_eq_zero.mp hx.1)
      rw [if_neg hcond]
      have hbl : ¬ b.length = 0 := fun hx => hb (List.length_eq_zero.mp hx)
      have hbin : binStage b false [] false = .error .parseError := by
        unfold binStage
        rw [if_neg hbl, if_neg (by simp), hdes]
      exact hbin
    simp [rest_getutxos, hpp]

/-- C7 witness: a concrete malformed URI outpoint (non-hex txid `zz`)
and a concrete undeserializable posted body. -/
theorem claim_C7_witness :
    rest_getutxos scenState .RF_JSON ["zz-0".toList] [] = (.error .parseError, scenState)
      ∧ rest_getutxos scenState .RF_BINARY [] [1] = (.error .parseError, scenState) :=
  ⟨claim_C7_malformed_rejected.1 scenState .RF_JSON ["zz-0".toList] [] ("zz-0".toList)
      (by decide) (Or.inr (by decide)),
    claim_C7_malformed_rejected.2 scenState [1] (by decide) (by rfl)⟩

/-- C9 counterexample: a hex-format request that supplies an outpoint
in the URI path and carries the non-empty raw body `"zz"` (bytes
122, 122) is not rejected — the body hex-decodes to nothing, so the
handler proceeds to the lookup and answers successfully. -/
theorem claim_C9_uri_body_counterexample :
    ([122, 122] : List Nat) ≠ []
      ∧ uriStage ["aa-0".toList] = .ok (false, [⟨170, 0⟩], true)
      ∧ exceptIsOk (rest_getutxos scenState .RF_HEX ["aa-0".toList] [122, 122]).1 = true :=
  ⟨by decide, by rfl, by rfl⟩

/-- C9 (amended): a binary-format request whose raw body is non-empty,
or a hex-format request whose body hex-decodes to a non-empty byte
string, combined with outpoints parsed from the URI path, is rejected
with the combination error and no coin lookup. -/
theorem claim_C9_uri_body_exclusive (s : LedgerState) (rf : RetFormat)
    (u : List (List Char)) (b : List Nat) (fcm : Bool) (pts : List COutPoint)
    (huri : uriStage u = .ok (fcm, pts, true))
    (hrf : (rf = .RF_BINARY ∧ b ≠ []) ∨ (rf = .RF_HEX ∧ parseHexBytesB b ≠ [])) :
    rest_getutxos s rf u b = (.error .combinationNotAllowed, s) := by
  have hune : u ≠ [] := by
    intro h
    subst h
    simp [uriStage] at huri
  have hcond : ¬ (b.length = 0 ∧ u.length = 0) := by
    intro hx
    exact hune (List.length_eq_zero.mp hx.2)
  have hpp : parsePhase rf u b = .error .combinationNotAllowed := by
    unfold parsePhase
    rw [if_neg hcond, huri]
    rcases hrf with ⟨h, heff⟩ | ⟨h, heff⟩ <;> subst h
    · have hbl : ¬ b.length = 0 := fun hx => heff (List.length_eq_zero.mp hx)
      have hbin : binStage b fcm pts true = .error .combinationNotAllowed := by
        unfold binStage
        rw [if_neg hbl, if_pos rfl]
      exact hbin
    · have hbl : ¬ (parseHexBytesB b).length = 0 := fun hx =>
        heff (List.length_eq_zero.mp hx)
      have hbin : binStage (parseHexBytesB b) fcm pts true
          = .error .combinationNotAllowed := by
        unfold binStage
        rw [if_neg hbl, if_pos rfl]
      exact hbin
  simp [rest_getutxos, hpp]

/-- C9 witness: a concrete hex request whose body decodes to a
non-empty payload alongside a URI outpoint is rejected. -/
theorem claim_C9_witness :
    rest_getutxos scenState .RF_HEX ["aa-0".toList] [97, 97]
      = (.error .combinationNotAllowed, scenState) :=
  claim_C9_uri_body_exclusive scenState .RF_HEX ["aa-0".toList] [97, 97]
    false [⟨170, 0⟩] (by rfl) (Or.inr ⟨rfl, by decide⟩)
